import Mathlib

/-!
Verification of the USSD short-code allocation engine of the TekeTeke backend.

The engine lives in the server's USSD-pool section (`sumDigits`, `digitalRoot`,
`parseUssdDigits`, `fullCode`, `resolveTarget`, and the route handlers
`POST /api/admin/ussd/pool/assign-next` and `POST /api/admin/ussd/bind-from-pool`),
in the seeding script `scripts/seed-ussd-pool.js`, and in the SQL seed/constraints
(`supabase/seed_ussd_pool.sql` and the schema migration defining `ussd_pool`).

The store is modelled as a list of rows (`CodeSlot`), one per base, and the
Supabase query/update calls are modelled by their SQL semantics:
`select ... eq(allocated,false) order(base) limit(1)` picks the minimal free row,
`select ... eq(base,b) maybeSingle` is a lookup, and `update(fields).eq(base,b)`
rewrites every row with that base unconditionally (this last point is what the
source actually requests: the update is filtered on `base` only, not on
`allocated = false`).
-/

deriving instance DecidableEq for Except

namespace TekeTeke

/-- Value a single character contributes in `sumDigits`: JS `Number(c) || 0`,
i.e. the decimal digit value for `'0'`..`'9'` and `0` for any other character. -/
def charVal (c : Char) : Nat :=
  if c.isDigit then c.toNat - 48 else 0

/-- `sumDigits(str)` from the server and from `scripts/seed-ussd-pool.js`:
`(str || '').split('').reduce((a, c) => a + (Number(c) || 0), 0)`. -/
def sumDigits (s : String) : Nat :=
  s.data.foldl (fun a c => a + charVal c) 0

/-- Sum of the decimal digits of a natural number.  This models
`sumDigits(String(s))` for a number `s`: `String(s)` is the decimal
representation of `s` and each of its characters contributes its digit value. -/
def sumDigitsNat (n : Nat) : Nat :=
  if h : n < 10 then n else n % 10 + sumDigitsNat (n / 10)
decreasing_by exact Nat.div_lt_self (by omega) (by omega)

theorem sumDigitsNat_le (n : Nat) : sumDigitsNat n ≤ n := by
  induction n using Nat.strong_induction_on with
  | _ n ih =>
    rw [sumDigitsNat]
    split
    · exact Nat.le_refl n
    · have hlt : n / 10 < n := Nat.div_lt_self (by omega) (by omega)
      have := ih (n / 10) hlt
      omega

theorem sumDigitsNat_lt (n : Nat) (h : 10 ≤ n) : sumDigitsNat n < n := by
  rw [sumDigitsNat]
  split
  · omega
  · have := sumDigitsNat_le (n / 10)
    omega

theorem sumDigitsNat_mod9 (n : Nat) : sumDigitsNat n % 9 = n % 9 := by
  induction n using Nat.strong_induction_on with
  | _ n ih =>
    rw [sumDigitsNat]
    split
    · rfl
    · have hlt : n / 10 < n := Nat.div_lt_self (by omega) (by omega)
      have := ih (n / 10) hlt
      omega

theorem sumDigitsNat_pos (n : Nat) (h : 0 < n) : 0 < sumDigitsNat n := by
  induction n using Nat.strong_induction_on with
  | _ n ih =>
    rw [sumDigitsNat]
    split
    · omega
    · rename_i h10
      by_cases hm : 0 < n % 10
      · omega
      · have hd : 0 < n / 10 := by omega
        have := ih (n / 10) (Nat.div_lt_self (by omega) (by omega)) hd
        omega

/-- The `while (s > 9) s = sumDigits(String(s));` loop of `digitalRoot`. -/
def drLoop (s : Nat) : Nat :=
  if _h : s > 9 then drLoop (sumDigitsNat s) else s
decreasing_by exact sumDigitsNat_lt s (by omega)

/-- Closed form of the digit-sum loop: it computes `0` on `0` and otherwise the
digital root `1 + ((s - 1) mod 9)`. -/
theorem drLoop_closed (s : Nat) : drLoop s = if s = 0 then 0 else 1 + (s - 1) % 9 := by
  induction s using Nat.strong_induction_on with
  | _ s ih =>
    rw [drLoop]
    split
    · rename_i h9
      have hlt : sumDigitsNat s < s := sumDigitsNat_lt s (by omega)
      have hpos : 0 < sumDigitsNat s := sumDigitsNat_pos s (by omega)
      have hmod : sumDigitsNat s % 9 = s % 9 := sumDigitsNat_mod9 s
      rw [ih (sumDigitsNat s) hlt]
      split
      · omega
      · split
        · omega
        · omega
    · split
      · omega
      · omega

/-- `digitalRoot(n)` as written (identically) in the server's USSD-pool section and
in `scripts/seed-ussd-pool.js`:
`let s = sumDigits(String(n)); while (s > 9) s = sumDigits(String(s)); return s;`.
The argument is the base string (the call sites pass `parsed.base` / `base`). -/
def digitalRoot (b : String) : Nat :=
  drLoop (sumDigits b)

theorem digitalRoot_closed (b : String) :
    digitalRoot b = if sumDigits b = 0 then 0 else 1 + (sumDigits b - 1) % 9 :=
  drLoop_closed (sumDigits b)

/-- One attempted match of the regex `/(\d{3})(\d)(?=#|$)/` at the head of the
remaining input: four decimal digits whose following character is `'#'` or the
end of the string; on success the first three digits are the captured base and
the fourth the captured check digit. -/
def extract4 : List Char → Option (String × String)
  | c1 :: c2 :: c3 :: c4 :: rest =>
    if (c1.isDigit && c2.isDigit && c3.isDigit && c4.isDigit)
        && (rest.isEmpty || rest.head? == some '#') then
      some (String.mk [c1, c2, c3], String.mk [c4])
    else
      none
  | _ => none

/-- Leftmost-match scan of the regex: try `extract4` at each start position from
the left, returning the first success. -/
def scanCode : List Char → Option (String × String)
  | [] => none
  | c :: cs =>
    match extract4 (c :: cs) with
    | some r => some r
    | none => scanCode cs

/-- `parseUssdDigits(ussd)` from the server:
`const m = String(ussd).match(/(\d{3})(\d)(?=#|$)/); if (!m) return null;
return { base: m[1], check: m[2] };`. -/
def parseUssdDigits (s : String) : Option (String × String) :=
  scanCode s.data

/-- One row of the `ussd_pool` table (schema migration: `base text`, `checksum
text`, `allocated bool`, `level text`, `sacco_id`, `matatu_id`, `cashier_id`,
`allocated_at timestamptz`).  Timestamps are abstracted to naturals. -/
structure CodeSlot where
  base : String
  checksum : String
  allocated : Bool
  level : Option String
  sacco_id : Option String
  matatu_id : Option String
  cashier_id : Option String
  allocated_at : Option Nat
deriving Repr, DecidableEq

/-- The id fields destructured from the request body. -/
structure Ids where
  sacco_id : Option String
  matatu_id : Option String
  cashier_id : Option String
deriving Repr, DecidableEq

/-- JS truthiness of an optional string value: absent, `null` and `''` are
falsy, every other string is truthy. -/
def truthy : Option String → Bool
  | none => false
  | some s => !(s == "")

/-- JS `String.prototype.toUpperCase` restricted to what the code compares it
with: uppercase every character. -/
def upcase (s : String) : String :=
  String.mk (s.data.map Char.toUpper)

/-- `resolveTarget(level, ids)` from the server:
uppercases `level` and returns the assignment target, insisting on a truthy id
for the selected level; every other combination throws
`level must be SACCO or MATATU (CASHIER no longer supported)`. -/
def resolveTarget (level : Option String) (ids : Ids) :
    Except String (String × String) :=
  let L := upcase (level.getD "")
  if L == "MATATU" && truthy ids.matatu_id then
    Except.ok ("MATATU", ids.matatu_id.getD "")
  else if L == "SACCO" && truthy ids.sacco_id then
    Except.ok ("SACCO", ids.sacco_id.getD "")
  else
    Except.error "level must be SACCO or MATATU (CASHIER no longer supported)"

/-- `fullCode(prefix, base, check)` from the server:
`const p = prefix || '*001*'; return p + base + check + '#';`
(`pfx` because the source's parameter name is reserved in Lean). -/
def fullCode (pfx base check : String) : String :=
  (if pfx == "" then "*001*" else pfx) ++ base ++ check ++ "#"

/-- The row produced by the `update({...})` payload shared by `assign-next` and
`bind-from-pool`: sets `allocated`, `level`, exactly the id column matching the
assigned type (the other two are set to `null`), and `allocated_at`. -/
def allocUpdate (t : String × String) (now : Nat) (r : CodeSlot) : CodeSlot :=
  { r with
    allocated := true
    level := some t.1
    sacco_id := if t.1 == "SACCO" then some t.2 else none
    matatu_id := if t.1 == "MATATU" then some t.2 else none
    cashier_id := if t.1 == "CASHIER" then some t.2 else none
    allocated_at := some now }

/-- SQL semantics of `update(fields).eq('base', b)`: every row whose `base`
equals `b` is rewritten; the filter is on `base` alone. -/
def updateByBase (pool : List CodeSlot) (b : String)
    (f : CodeSlot → CodeSlot) : List CodeSlot :=
  pool.map fun r => if r.base == b then f r else r

/-- Lexicographic (bytewise) comparison of two character lists: the ascending
`text` ordering SQL applies to the `base` column.  On the fixed-width digit
strings of the pool this coincides with numeric order (proved below). -/
def lexLt : List Char → List Char → Bool
  | [], [] => false
  | [], _ :: _ => true
  | _ :: _, [] => false
  | a :: as, b :: bs =>
    if a < b then true
    else if b < a then false
    else lexLt as bs

/-- `strLt x y` models `x < y` in the store ordering of bases. -/
def strLt (x y : String) : Bool :=
  lexLt x.data y.data

/-- Accumulator step selecting the row with the smaller `base`. -/
def minStep (acc : Option CodeSlot) (r : CodeSlot) : Option CodeSlot :=
  match acc with
  | none => some r
  | some m => if strLt r.base m.base then some r else some m

/-- SQL semantics of
`select('base, checksum').eq('allocated', false).order('base').limit(1).maybeSingle()`:
the unallocated row with the least `base`, if any. -/
def nextFree (pool : List CodeSlot) : Option CodeSlot :=
  (pool.filter fun r => !r.allocated).foldl minStep none

/-- The tail of the `assign-next` handler after a candidate row has been read:
the unconditional `update(...).eq('base', nextFree.base)` followed by the
success response carrying the formatted code.  Split out so that the read and
the commit of the handler can be interleaved with other callers. -/
def assignFinish (pool : List CodeSlot) (slot : CodeSlot)
    (t : String × String) (now : Nat) (pfx : String) :
    Except String String × List CodeSlot :=
  (Except.ok (fullCode pfx slot.base slot.checksum),
   updateByBase pool slot.base (allocUpdate t now))

/-- `POST /api/admin/ussd/pool/assign-next`: reject `CASHIER`, resolve the
target, read the lowest unallocated base (`no free codes in pool` when there is
none), then commit via `assignFinish`.  The pair is (response, resulting pool). -/
def assignNext (pool : List CodeSlot) (level : Option String) (ids : Ids)
    (pfx : String) (now : Nat) : Except String String × List CodeSlot :=
  if upcase (level.getD "") == "CASHIER" then
    (Except.error "CASHIER level no longer supported", pool)
  else
    match resolveTarget level ids with
    | Except.error e => (Except.error e, pool)
    | Except.ok t =>
      match nextFree pool with
      | none => (Except.error "no free codes in pool", pool)
      | some slot => assignFinish pool slot t now pfx

/-- `POST /api/admin/ussd/bind-from-pool`: reject `CASHIER`, resolve the target,
parse the code (`invalid code format`), recompute and compare the checksum
(`checksum mismatch; expected w`), look the base up (`base not in pool`),
reject an allocated row (`already allocated`), else commit the same
unconditional update keyed on `base`. -/
def bindFromPool (pool : List CodeSlot) (level : Option String) (ids : Ids)
    (ussd_code : String) (pfx : String) (now : Nat) :
    Except String String × List CodeSlot :=
  if upcase (level.getD "") == "CASHIER" then
    (Except.error "CASHIER level no longer supported", pool)
  else
    match resolveTarget level ids with
    | Except.error e => (Except.error e, pool)
    | Except.ok t =>
      match parseUssdDigits ussd_code with
      | none => (Except.error "invalid code format", pool)
      | some (b, check) =>
        if toString (digitalRoot b) ≠ check then
          (Except.error ("checksum mismatch; expected " ++ toString (digitalRoot b)), pool)
        else
          match pool.find? (fun r => r.base == b) with
          | none => (Except.error "base not in pool", pool)
          | some slot =>
            if slot.allocated then
              (Except.error "already allocated", pool)
            else
              (Except.ok (fullCode pfx b check),
               updateByBase pool b (allocUpdate t now))

/-- A freshly seeded row: both seeding paths insert `(base, checksum)` with
`allocated = false` and no assignment fields. -/
def seedSlot (b c : String) : CodeSlot :=
  ⟨b, c, false, none, none, none, none, none⟩

/-- Checksum computed by `supabase/seed_ussd_pool.sql` for a base whose numeric
value is `n`: `0` when `n = 0`, else `1 + ((n - 1) % 9)`. -/
def sqlSeedChecksum (n : Nat) : Nat :=
  if n = 0 then 0 else 1 + (n - 1) % 9

/-- Checksum computed by the schema migration's bulk seed for series element
`n` (`n` ranges over 1..999): `(((n - 1) % 9) + 1)`. -/
def schemaSeedChecksum (n : Nat) : Nat :=
  (n - 1) % 9 + 1

/-- Checksum demanded by the schema constraint `ussd_checksum_matches_base` as
a function of the three digits of `base`: `(((d1 + d2 + d3) - 1) % 9) + 1`. -/
def constraintChecksum (d1 d2 d3 : Nat) : Nat :=
  (d1 + d2 + d3 - 1) % 9 + 1

/-- The three-character base string built from three digit values. -/
def baseStr (d1 d2 d3 : Nat) : String :=
  String.mk [Nat.digitChar d1, Nat.digitChar d2, Nat.digitChar d3]

theorem resolveTarget_ok_spec (level : Option String) (ids : Ids) (t : String × String)
    (h : resolveTarget level ids = Except.ok t) :
    (t.1 = "MATATU" ∨ t.1 = "SACCO") ∧ t.2 ≠ "" ∧ upcase (level.getD "") = t.1 := by
  unfold resolveTarget at h
  by_cases h1 : (upcase (level.getD "") == "MATATU" && truthy ids.matatu_id) = true
  · rw [if_pos h1] at h
    injection h with h
    subst h
    simp only [Bool.and_eq_true, beq_iff_eq] at h1
    obtain ⟨hL, h3⟩ := h1
    cases hm : ids.matatu_id with
    | none => rw [hm] at h3; simp [truthy] at h3
    | some s =>
      rw [hm] at h3
      simp only [truthy] at h3
      refine ⟨Or.inl rfl, ?_, hL⟩
      simp only [hm, Option.getD_some]
      simpa using h3
  · rw [if_neg h1] at h
    by_cases h2 : (upcase (level.getD "") == "SACCO" && truthy ids.sacco_id) = true
    · rw [if_pos h2] at h
      injection h with h
      subst h
      simp only [Bool.and_eq_true, beq_iff_eq] at h2
      obtain ⟨hL, h3⟩ := h2
      cases hm : ids.sacco_id with
      | none => rw [hm] at h3; simp [truthy] at h3
      | some s =>
        rw [hm] at h3
        simp only [truthy] at h3
        refine ⟨Or.inr rfl, ?_, hL⟩
        simp only [hm, Option.getD_some]
        simpa using h3
    · rw [if_neg h2] at h
      exact absurd h (by simp)


def slotInv (r : CodeSlot) : Prop :=
  ((r.allocated = false) ↔
    (r.level = none ∧ r.sacco_id = none ∧ r.matatu_id = none ∧ r.cashier_id = none)) ∧
  (r.allocated = true →
    ((r.level = some "SACCO" ∧ r.sacco_id ≠ none ∧ r.sacco_id ≠ some "" ∧
        r.matatu_id = none ∧ r.cashier_id = none) ∨
     (r.level = some "MATATU" ∧ r.matatu_id ≠ none ∧ r.matatu_id ≠ some "" ∧
        r.sacco_id = none ∧ r.cashier_id = none)))

instance (r : CodeSlot) : Decidable (slotInv r) := by
  unfold slotInv; infer_instance

theorem slotInv_allocUpdate (t : String × String) (now : Nat) (r : CodeSlot)
    (h1 : t.1 = "MATATU" ∨ t.1 = "SACCO") (h2 : t.2 ≠ "") :
    slotInv (allocUpdate t now r) := by
  obtain ⟨ty, id⟩ := t
  simp only at h1 h2
  rcases h1 with h1 | h1 <;> subst h1
  · refine ⟨?_, fun _ => Or.inr ?_⟩
    · simp [allocUpdate]
    · simp [allocUpdate]
      exact h2
  · refine ⟨?_, fun _ => Or.inl ?_⟩
    · simp [allocUpdate]
    · simp [allocUpdate]
      exact h2

theorem updateByBase_inv (pool : List CodeSlot) (b : String)
    (f : CodeSlot → CodeSlot)
    (hpool : ∀ r ∈ pool, slotInv r) (hf : ∀ r, slotInv (f r)) :
    ∀ r ∈ updateByBase pool b f, slotInv r := by
  intro r hr
  unfold updateByBase at hr
  obtain ⟨r0, hr0, rfl⟩ := List.mem_map.mp hr
  by_cases hb : (r0.base == b) = true
  · rw [if_pos hb]; exact hf r0
  · rw [if_neg hb]; exact hpool r0 hr0

theorem assignNext_inv (pool : List CodeSlot) (level : Option String) (ids : Ids)
    (pfx : String) (now : Nat) (hpool : ∀ r ∈ pool, slotInv r) :
    ∀ r ∈ (assignNext pool level ids pfx now).2, slotInv r := by
  unfold assignNext
  split
  · exact hpool
  · split
    · exact hpool
    · rename_i t hres
      split
      · exact hpool
      · rename_i s hn
        have hspec := resolveTarget_ok_spec level ids t hres
        exact updateByBase_inv pool s.base _ hpool
          (fun r => slotInv_allocUpdate t now r hspec.1 hspec.2.1)

theorem bindFromPool_inv (pool : List CodeSlot) (level : Option String) (ids : Ids)
    (code pfx : String) (now : Nat) (hpool : ∀ r ∈ pool, slotInv r) :
    ∀ r ∈ (bindFromPool pool level ids code pfx now).2, slotInv r := by
  unfold bindFromPool
  split
  · exact hpool
  · split
    · exact hpool
    · rename_i t hres
      split
      · exact hpool
      · split
        · exact hpool
        · split
          · exact hpool
          · split
            · exact hpool
            · rename_i hb
              have hspec := resolveTarget_ok_spec level ids t hres
              exact updateByBase_inv pool _ _ hpool
                (fun r => slotInv_allocUpdate t now r hspec.1 hspec.2.1)

theorem scanCode_eq_none_iff (cs : List Char) :
    scanCode cs = none ↔ ∀ i, extract4 (cs.drop i) = none := by
  induction cs with
  | nil =>
    simp only [scanCode]
    constructor
    · intro _ i
      simp [extract4]
    · intro _
      trivial
  | cons c cs ih =>
    cases h : extract4 (c :: cs) with
    | some r =>
      simp only [scanCode, h]
      constructor
      · intro hc
        exact absurd hc (by simp)
      · intro hall
        have := hall 0
        simp only [List.drop_zero] at this
        rw [h] at this
        exact absurd this (by simp)
    | none =>
      simp only [scanCode, h]
      rw [ih]
      constructor
      · intro hall i
        cases i with
        | zero => simpa using h
        | succ j => simpa using hall j
      · intro hall j
        have := hall (j + 1)
        simpa using this

theorem scanCode_eq_some_iff (cs : List Char) (r : String × String) :
    scanCode cs = some r ↔
      ∃ i, extract4 (cs.drop i) = some r ∧ ∀ j < i, extract4 (cs.drop j) = none := by
  induction cs with
  | nil =>
    simp only [scanCode]
    constructor
    · intro hc
      exact absurd hc (by simp)
    · rintro ⟨i, hi, -⟩
      rw [List.drop_nil] at hi
      exact absurd hi (by simp [extract4])
  | cons c cs ih =>
    cases h : extract4 (c :: cs) with
    | some r0 =>
      simp only [scanCode, h]
      constructor
      · intro hr
        injection hr with hr
        exact ⟨0, by simpa [hr.symm] using h, by omega⟩
      · rintro ⟨i, hi, hj⟩
        cases i with
        | zero =>
          simp only [List.drop_zero] at hi
          rw [h] at hi
          injection hi with hi
          rw [hi]
        | succ j =>
          have := hj 0 (by omega)
          simp only [List.drop_zero] at this
          rw [h] at this
          exact absurd this (by simp)
    | none =>
      simp only [scanCode, h]
      rw [ih]
      constructor
      · rintro ⟨i, hi, hj⟩
        refine ⟨i + 1, by simpa using hi, fun j hjlt => ?_⟩
        cases j with
        | zero => simpa using h
        | succ j' => simpa using hj j' (by omega)
      · rintro ⟨i, hi, hj⟩
        cases i with
        | zero =>
          simp only [List.drop_zero] at hi
          rw [h] at hi
          exact absurd hi (by simp)
        | succ i' =>
          refine ⟨i', by simpa using hi, fun j hjlt => ?_⟩
          have := hj (j + 1) (by omega)
          simpa using this

theorem char_eq_of_not_lt {a b : Char} (h1 : ¬a < b) (h2 : ¬b < a) : a = b := by
  have hba : b ≤ a := Char.not_lt.mp h1
  have hab : a ≤ b := Char.not_lt.mp h2
  exact Char.ext (UInt32.le_antisymm hab hba)

theorem lexLt_irrefl (l : List Char) : lexLt l l = false := by
  induction l with
  | nil => rfl
  | cons a as ih =>
    unfold lexLt
    rw [if_neg (lt_irrefl a), if_neg (lt_irrefl a)]
    exact ih

theorem lexLt_trans (x y z : List Char) (hxy : lexLt x y = true)
    (hyz : lexLt y z = true) : lexLt x z = true := by
  induction x generalizing y z with
  | nil =>
    cases z with
    | nil =>
      cases y with
      | nil => exact hyz
      | cons b bs => simp [lexLt] at hyz
    | cons c cs => rfl
  | cons a as ih =>
    cases y with
    | nil => simp [lexLt] at hxy
    | cons b bs =>
      cases z with
      | nil => simp [lexLt] at hyz
      | cons c cs =>
        unfold lexLt at hxy hyz ⊢
        by_cases hab : a < b
        · by_cases hbc : b < c
          · rw [if_pos (Char.lt_trans hab hbc)]
          · by_cases hcb : c < b
            · rw [if_neg hbc, if_pos hcb] at hyz
              exact absurd hyz (by simp)
            · have hbc' : b = c := char_eq_of_not_lt hbc hcb
              subst hbc'
              rw [if_pos hab]
        · by_cases hba : b < a
          · rw [if_neg hab, if_pos hba] at hxy
            exact absurd hxy (by simp)
          · have hab' : a = b := char_eq_of_not_lt hab hba
            subst hab'
            rw [if_neg hab, if_neg hba] at hxy
            by_cases hac : a < c
            · rw [if_pos hac]
            · by_cases hca : c < a
              · rw [if_neg hac, if_pos hca] at hyz
                exact absurd hyz (by simp)
              · rw [if_neg hac, if_neg hca] at hyz ⊢
                exact ih bs cs hxy hyz

theorem lexLt_eq_of_not (x y : List Char) (hxy : lexLt x y = false)
    (hyx : lexLt y x = false) : x = y := by
  induction x generalizing y with
  | nil =>
    cases y with
    | nil => rfl
    | cons b bs => simp [lexLt] at hxy
  | cons a as ih =>
    cases y with
    | nil => simp [lexLt] at hyx
    | cons b bs =>
      unfold lexLt at hxy hyx
      by_cases hab : a < b
      · rw [if_pos hab] at hxy
        exact absurd hxy (by simp)
      · by_cases hba : b < a
        · rw [if_pos hba] at hyx
          exact absurd hyx (by simp)
        · have hab' : a = b := char_eq_of_not_lt hab hba
          subst hab'
          rw [if_neg hab, if_neg hba] at hxy
          rw [if_neg hba, if_neg hab] at hyx
          rw [ih bs hxy hyx]

theorem strLt_irrefl (x : String) : strLt x x = false :=
  lexLt_irrefl x.data

theorem strLt_eq_of_not (x y : String) (hxy : strLt x y = false)
    (hyx : strLt y x = false) : x = y := by
  have h := lexLt_eq_of_not x.data y.data hxy hyx
  cases x
  cases y
  exact congrArg String.mk h

theorem foldl_minStep_spec (l : List CodeSlot) :
    ∀ (acc : Option CodeSlot) (s : CodeSlot), l.foldl minStep acc = some s →
      (s ∈ l ∨ acc = some s) ∧ (∀ r ∈ l, strLt r.base s.base = false) ∧
      (∀ m, acc = some m → strLt m.base s.base = false) := by
  induction l with
  | nil =>
    intro acc s h
    simp only [List.foldl_nil] at h
    refine ⟨Or.inr h, by simp, fun m hm => ?_⟩
    rw [h] at hm
    injection hm with hm
    rw [hm]
    exact strLt_irrefl m.base
  | cons r l ih =>
    intro acc s h
    simp only [List.foldl_cons] at h
    obtain ⟨hmem, hmin, hacc⟩ := ih (minStep acc r) s h
    have hstep : strLt r.base s.base = false ∧
        (∀ m, acc = some m → strLt m.base s.base = false) := by
      cases acc with
      | none => exact ⟨hacc r (by simp [minStep]), by simp⟩
      | some m0 =>
        by_cases hlt : strLt r.base m0.base = true
        · have hr := hacc r (by simp [minStep, hlt])
          refine ⟨hr, fun m hm => ?_⟩
          injection hm with hm
          subst hm
          by_cases hms : strLt m0.base s.base = true
          · have := lexLt_trans r.base.data m0.base.data s.base.data hlt hms
            rw [show strLt r.base s.base = true from this] at hr
            exact absurd hr (by simp)
          · simpa using hms
        · have hlt' : strLt r.base m0.base = false := by
            rwa [Bool.not_eq_true] at hlt
          have hm0 := hacc m0 (by simp [minStep, hlt'])
          refine ⟨?_, fun m hm => by injection hm with hm; subst hm; exact hm0⟩
          by_cases hmr : strLt m0.base r.base = true
          · by_cases hrs : strLt r.base s.base = true
            · have := lexLt_trans m0.base.data r.base.data s.base.data hmr hrs
              rw [show strLt m0.base s.base = true from this] at hm0
              exact absurd hm0 (by simp)
            · simpa using hrs
          · have hmr' : strLt m0.base r.base = false := by
              rwa [Bool.not_eq_true] at hmr
            have hbe : r.base = m0.base := strLt_eq_of_not _ _ hlt' hmr'
            rw [hbe]
            exact hm0
    refine ⟨?_, ?_, hstep.2⟩
    · rcases hmem with hm | hm
      · exact Or.inl (List.mem_cons_of_mem r hm)
      · cases acc with
        | none =>
          simp only [minStep] at hm
          injection hm with hm
          exact Or.inl (by rw [← hm]; exact List.mem_cons_self r l)
        | some m0 =>
          by_cases hlt : strLt r.base m0.base = true
          · simp only [minStep, if_pos hlt] at hm
            injection hm with hm
            exact Or.inl (by rw [← hm]; exact List.mem_cons_self r l)
          · simp only [minStep, if_neg hlt] at hm
            exact Or.inr hm
    · intro x hx
      rcases List.mem_cons.mp hx with hx | hx
      · rw [hx]
        exact hstep.1
      · exact hmin x hx

theorem nextFree_spec (pool : List CodeSlot) (s : CodeSlot)
    (h : nextFree pool = some s) :
    s ∈ pool ∧ s.allocated = false ∧
      ∀ r ∈ pool, r.allocated = false → strLt r.base s.base = false := by
  unfold nextFree at h
  obtain ⟨hmem, hmin, -⟩ := foldl_minStep_spec _ none s h
  rcases hmem with hmem | hmem
  · have hm := List.mem_filter.mp hmem
    refine ⟨hm.1, by simpa using hm.2, fun r hr hra => ?_⟩
    exact hmin r (List.mem_filter.mpr ⟨hr, by simp [hra]⟩)
  · exact absurd hmem (by simp)

/-- Numeric value of a character list read as a decimal numeral (non-digit
characters count 0, matching `charVal`). -/
def valList (l : List Char) : Nat :=
  l.foldl (fun a c => 10 * a + charVal c) 0

/-- Numeric value of a base string: `strNum "110" = 110`. -/
def strNum (s : String) : Nat :=
  valList s.data

theorem foldl_val (l : List Char) :
    ∀ acc, l.foldl (fun a c => 10 * a + charVal c) acc =
      acc * 10 ^ l.length + valList l := by
  induction l with
  | nil => intro acc; simp [valList]
  | cons c cs ih =>
    intro acc
    have h2 : valList (c :: cs) = charVal c * 10 ^ cs.length + valList cs := by
      show cs.foldl _ (10 * 0 + charVal c) = _
      rw [ih (10 * 0 + charVal c)]
      ring_nf
    show cs.foldl _ (10 * acc + charVal c) = _
    rw [ih (10 * acc + charVal c), h2, List.length_cons]
    ring

theorem valList_cons (c : Char) (cs : List Char) :
    valList (c :: cs) = charVal c * 10 ^ cs.length + valList cs := by
  show cs.foldl _ (10 * 0 + charVal c) = _
  rw [foldl_val cs (10 * 0 + charVal c)]
  ring_nf

theorem uint32_le_iff (a b : UInt32) : a ≤ b ↔ a.toNat ≤ b.toNat := by
  rw [UInt32.le_def, BitVec.le_def]
  exact Iff.rfl

theorem uint32_lt_iff (a b : UInt32) : a < b ↔ a.toNat < b.toNat := by
  rw [UInt32.lt_def, BitVec.lt_def]
  exact Iff.rfl

theorem toNat48 : (48 : UInt32).toNat = 48 := rfl

theorem toNat57 : (57 : UInt32).toNat = 57 := rfl

theorem isDigit_toNat (c : Char) (h : c.isDigit = true) :
    48 ≤ c.val.toNat ∧ c.val.toNat ≤ 57 := by
  unfold Char.isDigit at h
  simp only [Bool.and_eq_true, decide_eq_true_eq] at h
  constructor
  · have := (uint32_le_iff 48 c.val).mp h.1
    rwa [toNat48] at this
  · have := (uint32_le_iff c.val 57).mp h.2
    rwa [toNat57] at this

theorem charVal_le_nine (c : Char) : charVal c ≤ 9 := by
  unfold charVal
  split
  · rename_i h
    have := isDigit_toNat c h
    unfold Char.toNat
    omega
  · omega

theorem valList_lt (l : List Char) : valList l < 10 ^ l.length := by
  induction l with
  | nil => simp [valList]
  | cons c cs ih =>
    rw [valList_cons, List.length_cons]
    have h9 := charVal_le_nine c
    calc charVal c * 10 ^ cs.length + valList cs
        < charVal c * 10 ^ cs.length + 10 ^ cs.length := Nat.add_lt_add_left ih _
      _ = (charVal c + 1) * 10 ^ cs.length := by ring
      _ ≤ 10 * 10 ^ cs.length := Nat.mul_le_mul_right _ (by omega)
      _ = 10 ^ (cs.length + 1) := by rw [pow_succ]; ring

theorem char_lt_iff_charVal (a b : Char) (ha : a.isDigit = true)
    (hb : b.isDigit = true) : a < b ↔ charVal a < charVal b := by
  have hna := isDigit_toNat a ha
  have hnb := isDigit_toNat b hb
  have hlt : a < b ↔ a.val.toNat < b.val.toNat := by
    rw [Char.lt_iff_val_lt_val]
    exact uint32_lt_iff a.val b.val
  rw [hlt]
  unfold charVal Char.toNat
  rw [if_pos ha, if_pos hb]
  omega

theorem lexLt_val (x : List Char) : ∀ (y : List Char), x.length = y.length →
    (∀ c ∈ x, c.isDigit = true) → (∀ c ∈ y, c.isDigit = true) →
    (lexLt x y = true ↔ valList x < valList y) := by
  induction x with
  | nil =>
    intro y hlen _ _
    cases y with
    | nil => simp [lexLt, valList]
    | cons b bs => simp at hlen
  | cons a as ih =>
    intro y hlen hx hy
    cases y with
    | nil => simp at hlen
    | cons b bs =>
      have hlen' : as.length = bs.length := by simpa using hlen
      have hda : a.isDigit = true := hx a (List.mem_cons_self a as)
      have hdb : b.isDigit = true := hy b (List.mem_cons_self b bs)
      rw [valList_cons, valList_cons, hlen']
      unfold lexLt
      by_cases hab : a < b
      · rw [if_pos hab]
        have hv : charVal a < charVal b := (char_lt_iff_charVal a b hda hdb).mp hab
        have h1 : valList as < 10 ^ bs.length := hlen' ▸ valList_lt as
        constructor
        · intro _
          calc charVal a * 10 ^ bs.length + valList as
              < charVal a * 10 ^ bs.length + 10 ^ bs.length := Nat.add_lt_add_left h1 _
            _ = (charVal a + 1) * 10 ^ bs.length := by ring
            _ ≤ charVal b * 10 ^ bs.length := Nat.mul_le_mul_right _ (by omega)
            _ ≤ charVal b * 10 ^ bs.length + valList bs := Nat.le_add_right _ _
        · intro _
          rfl
      · by_cases hba : b < a
        · rw [if_neg hab, if_pos hba]
          have hv : charVal b < charVal a := (char_lt_iff_charVal b a hdb hda).mp hba
          have h1 : valList bs < 10 ^ bs.length := valList_lt bs
          constructor
          · intro hc
            exact absurd hc (by simp)
          · intro hc
            exfalso
            have h2 : charVal b * 10 ^ bs.length + valList bs
                < (charVal b + 1) * 10 ^ bs.length := by
              have := Nat.add_lt_add_left h1 (charVal b * 10 ^ bs.length)
              calc charVal b * 10 ^ bs.length + valList bs
                  < charVal b * 10 ^ bs.length + 10 ^ bs.length := this
                _ = (charVal b + 1) * 10 ^ bs.length := by ring
            have h3 : (charVal b + 1) * 10 ^ bs.length ≤ charVal a * 10 ^ bs.length :=
              Nat.mul_le_mul_right _ (by omega)
            have h4 : charVal a * 10 ^ bs.length
                ≤ charVal a * 10 ^ bs.length + valList as := Nat.le_add_right _ _
            linarith
        · have hab' : a = b := char_eq_of_not_lt hab hba
          subst hab'
          rw [if_neg hab, if_neg hba]
          rw [ih bs hlen' (fun c hc => hx c (List.mem_cons_of_mem a hc))
            (fun c hc => hy c (List.mem_cons_of_mem a hc))]
          exact (add_lt_add_iff_left _).symm

/-- The base-format constraint of the schema (`ussd_base_format`):
exactly three characters, all decimal digits, not `"000"`. -/
def wfBase (s : String) : Bool :=
  (s.data.length == 3) && s.data.all Char.isDigit && !(s == "000")

theorem strLt_num (x y : String) (hx : wfBase x = true) (hy : wfBase y = true) :
    strLt x y = true ↔ strNum x < strNum y := by
  unfold wfBase at hx hy
  simp only [Bool.and_eq_true, beq_iff_eq, List.all_eq_true] at hx hy
  exact lexLt_val x.data y.data (by omega)
    (fun c hc => hx.1.2 c hc) (fun c hc => hy.1.2 c hc)

/-- A target accepted by `resolveTarget` is never `CASHIER`. -/
theorem resolveTarget_not_cashier (level : Option String) (ids : Ids)
    (t : String × String) (hres : resolveTarget level ids = Except.ok t) :
    (upcase (level.getD "") == "CASHIER") = false := by
  have hspec := resolveTarget_ok_spec level ids t hres
  rw [hspec.2.2]
  rcases hspec.1 with h | h <;> rw [h] <;> decide

/-- Pool row for base `"110"` (digit sum 2, checksum `"2"`), as seeded. -/
def slot110 : CodeSlot := ⟨"110", "2", false, none, none, none, none, none⟩

/-- Pool row for base `"115"` (digit sum 7, checksum `"7"`), as seeded. -/
def slot115 : CodeSlot := ⟨"115", "7", false, none, none, none, none, none⟩

/-- Pool row for base `"120"` (digit sum 3, checksum `"3"`), as seeded. -/
def slot120 : CodeSlot := ⟨"120", "3", false, none, none, none, none, none⟩

/-- C1: the claim states that claiming a base is atomic — of two concurrent
callers on the same base exactly one succeeds and the other observes
`AlreadyAllocated`, because the commit is a compare-and-set, not a
read-then-write sequence.  The code commits with an update filtered on `base`
alone, performed after a separate read.  Evaluated at the failing input: with
the one-slot pool `["110"]`, caller A (`SACCO A1`) reads its candidate, caller
B (`MATATU M1`) runs `assign-next` to completion and is told it owns
`*001*1102#`, and when A resumes, its commit also reports success for the very
same code and silently overwrites B's allocation: both callers believe they
succeeded, and the stored target no longer matches the one B was told it
claimed. -/
theorem C1_race_double_success :
    nextFree [slot110] = some slot110 ∧
    assignNext [slot110] (some "MATATU") ⟨none, some "M1", none⟩ "*001*" 0 =
      (Except.ok "*001*1102#", [allocUpdate ("MATATU", "M1") 0 slot110]) ∧
    assignFinish [allocUpdate ("MATATU", "M1") 0 slot110] slot110 ("SACCO", "A1") 1 "*001*" =
      (Except.ok "*001*1102#", [allocUpdate ("SACCO", "A1") 1 slot110]) ∧
    (allocUpdate ("SACCO", "A1") 1 slot110).level = some "SACCO" ∧
    (allocUpdate ("SACCO", "A1") 1 slot110).matatu_id = none := by
  decide

/-- C4 counterexample: the claim says a caller that loses the race on its
chosen candidate observes `AlreadyAllocated` and retries with the next-lowest
candidate from a re-fetched list.  With free bases `{"110", "115"}`, caller A
reads candidate `"110"`, caller B completes `assign-next` and claims `"110"`;
when A resumes, the code does not retry with `"115"` (which would yield
`*001*1157#`) — its unconditional commit reports success for `"110"` and
leaves `"115"` untouched. -/
theorem C4_counterexample :
    nextFree [slot110, slot115] = some slot110 ∧
    assignNext [slot110, slot115] (some "MATATU") ⟨none, some "M1", none⟩ "*001*" 0 =
      (Except.ok "*001*1102#", [allocUpdate ("MATATU", "M1") 0 slot110, slot115]) ∧
    assignFinish [allocUpdate ("MATATU", "M1") 0 slot110, slot115] slot110
        ("SACCO", "A1") 1 "*001*" =
      (Except.ok "*001*1102#", [allocUpdate ("SACCO", "A1") 1 slot110, slot115]) ∧
    (assignFinish [allocUpdate ("MATATU", "M1") 0 slot110, slot115] slot110
        ("SACCO", "A1") 1 "*001*").1 ≠ Except.ok "*001*1157#" := by
  decide

/-- C4 (amended): `assign-next` makes a single attempt with no retry loop:
with a valid target, when the listing of unallocated bases is empty it fails
with `no free codes in pool` (PoolExhausted) without mutating any slot, and
when a lowest candidate exists the handler unconditionally commits that
candidate and reports success — it never observes `AlreadyAllocated` and never
re-fetches the list. -/
theorem C4_single_attempt (pool : List CodeSlot) (level : Option String)
    (ids : Ids) (pfx : String) (now : Nat) (t : String × String)
    (hres : resolveTarget level ids = Except.ok t) :
    (nextFree pool = none →
      assignNext pool level ids pfx now = (Except.error "no free codes in pool", pool)) ∧
    (∀ s, nextFree pool = some s →
      assignNext pool level ids pfx now = assignFinish pool s t now pfx ∧
      (assignFinish pool s t now pfx).1 = Except.ok (fullCode pfx s.base s.checksum)) := by
  have hC := resolveTarget_not_cashier level ids t hres
  constructor
  · intro hn
    unfold assignNext
    rw [if_neg (by rw [hC]; exact Bool.false_ne_true), hres, hn]
  · intro s hn
    constructor
    · unfold assignNext
      rw [if_neg (by rw [hC]; exact Bool.false_ne_true), hres, hn]
    · rfl

/-- C4 witness: on an empty pool with a valid SACCO target, `assign-next`
reports `no free codes in pool` and the pool is unchanged. -/
theorem C4_single_attempt_witness :
    assignNext [] (some "SACCO") ⟨some "A1", none, none⟩ "*001*" 0 =
      (Except.error "no free codes in pool", []) :=
  (C4_single_attempt [] (some "SACCO") ⟨some "A1", none, none⟩ "*001*" 0
    ("SACCO", "A1") (by decide)).1 (by decide)

/-- C5: with a valid target and a non-empty set of unallocated rows,
`assign-next` selects the unallocated row whose base is least — in store order,
and numerically least when the pool satisfies the schema's base-format
constraint — returns its formatted code, and claims exactly that base (every
row of the updated pool carrying that base is allocated). -/
theorem C5_assign_lowest (pool : List CodeSlot) (level : Option String)
    (ids : Ids) (pfx : String) (now : Nat) (t : String × String) (s : CodeSlot)
    (hres : resolveTarget level ids = Except.ok t)
    (hfree : nextFree pool = some s) :
    assignNext pool level ids pfx now =
      (Except.ok (fullCode pfx s.base s.checksum),
        updateByBase pool s.base (allocUpdate t now)) ∧
    s ∈ pool ∧ s.allocated = false ∧
    (∀ r ∈ pool, r.allocated = false → strLt r.base s.base = false) ∧
    ((∀ r ∈ pool, wfBase r.base = true) →
      ∀ r ∈ pool, r.allocated = false → strNum s.base ≤ strNum r.base) ∧
    (∀ r ∈ updateByBase pool s.base (allocUpdate t now),
      r.base = s.base → r.allocated = true) := by
  have hC := resolveTarget_not_cashier level ids t hres
  obtain ⟨hmem, halloc, hmin⟩ := nextFree_spec pool s hfree
  refine ⟨?_, hmem, halloc, hmin, ?_, ?_⟩
  · unfold assignNext
    rw [if_neg (by rw [hC]; exact Bool.false_ne_true), hres, hfree]
    rfl
  · intro hwf r hr hra
    have hns := hmin r hr hra
    have hiff := strLt_num r.base s.base (hwf r hr) (hwf s hmem)
    by_cases hn : strNum r.base < strNum s.base
    · rw [hiff.mpr hn] at hns
      exact absurd hns (by simp)
    · omega
  · intro r hr hrb
    unfold updateByBase at hr
    obtain ⟨r0, hr0, rfl⟩ := List.mem_map.mp hr
    by_cases hb : (r0.base == s.base) = true
    · rw [if_pos hb]
      rfl
    · rw [if_neg hb] at hrb ⊢
      exact absurd (beq_iff_eq.mpr hrb) hb

/-- C5 witness: with available bases `{"110", "115", "120"}`, the first call
returns `*001*1102#` (base `"110"`), and a second call on the resulting pool
returns `*001*1157#` (base `"115"`). -/
theorem C5_assign_lowest_witness :
    assignNext [slot110, slot115, slot120] (some "SACCO") ⟨some "A1", none, none⟩
        "*001*" 0 =
      (Except.ok "*001*1102#",
        [allocUpdate ("SACCO", "A1") 0 slot110, slot115, slot120]) ∧
    assignNext [allocUpdate ("SACCO", "A1") 0 slot110, slot115, slot120]
        (some "SACCO") ⟨some "A2", none, none⟩ "*001*" 1 =
      (Except.ok "*001*1157#",
        [allocUpdate ("SACCO", "A1") 0 slot110,
          allocUpdate ("SACCO", "A2") 1 slot115, slot120]) := by
  constructor
  · have h := (C5_assign_lowest [slot110, slot115, slot120] (some "SACCO")
      ⟨some "A1", none, none⟩ "*001*" 0 ("SACCO", "A1") slot110
      (by decide) (by decide)).1
    rw [h]
    decide
  · have h := (C5_assign_lowest [allocUpdate ("SACCO", "A1") 0 slot110, slot115, slot120]
      (some "SACCO") ⟨some "A2", none, none⟩ "*001*" 1 ("SACCO", "A2") slot115
      (by decide) (by decide)).1
    rw [h]
    decide

/-- C2: every freshly seeded slot satisfies the allocation-fields invariant
(`allocated = false` iff the type and all id fields are empty), and both
mutating operations, `assign-next` and `bind-from-pool`, preserve it: in every
reachable pool, an allocated row carries exactly one of the two permitted id
fields (`sacco_id` for `SACCO`, `matatu_id` for `MATATU`), non-empty, with the
other id fields empty. -/
theorem C2_slot_invariant :
    (∀ b c, slotInv (seedSlot b c)) ∧
    (∀ (pool : List CodeSlot) (level : Option String) (ids : Ids)
        (code pfx : String) (now : Nat),
      (∀ r ∈ pool, slotInv r) →
        (∀ r ∈ (assignNext pool level ids pfx now).2, slotInv r) ∧
        (∀ r ∈ (bindFromPool pool level ids code pfx now).2, slotInv r)) := by
  refine ⟨fun b c => ?_, fun pool level ids code pfx now hpool =>
    ⟨assignNext_inv pool level ids pfx now hpool,
     bindFromPool_inv pool level ids code pfx now hpool⟩⟩
  constructor
  · simp [seedSlot]
  · intro h
    simp [seedSlot] at h

/-- C2 witness: the invariant holds for the seeded `"110"` row and for every
row of the pool produced by assigning it to `SACCO A1`. -/
theorem C2_slot_invariant_witness :
    slotInv (seedSlot "110" "2") ∧
    (∀ r ∈ (assignNext [slot110] (some "SACCO") ⟨some "A1", none, none⟩ "*001*" 0).2,
      slotInv r) :=
  ⟨C2_slot_invariant.1 "110" "2",
   (C2_slot_invariant.2 [slot110] (some "SACCO") ⟨some "A1", none, none⟩
      "" "*001*" 0 (by decide)).1⟩

theorem charVal_digitChar (d : Nat) (h : d < 10) :
    charVal (Nat.digitChar d) = d := by
  interval_cases d <;> decide

theorem sumDigits_baseStr (d1 d2 d3 : Nat) (h1 : d1 < 10) (h2 : d2 < 10)
    (h3 : d3 < 10) : sumDigits (baseStr d1 d2 d3) = d1 + d2 + d3 := by
  show ((0 + charVal (Nat.digitChar d1)) + charVal (Nat.digitChar d2))
      + charVal (Nat.digitChar d3) = d1 + d2 + d3
  rw [charVal_digitChar d1 h1, charVal_digitChar d2 h2, charVal_digitChar d3 h3]
  omega

/-- C3: for every 3-digit base with digit sum `s`, `digitalRoot` returns `0`
when `s = 0` and otherwise the digital root `1 + ((s - 1) mod 9)`; the SQL
seeding script, the schema migration's bulk seed, and the schema constraint
compute exactly the same function of the base (the bind-time re-verification
literally calls this same `digitalRoot`), and for non-zero bases the result is
a single digit in `1..9`. -/
theorem C3_checksum_function (d1 d2 d3 : Nat)
    (h1 : d1 < 10) (h2 : d2 < 10) (h3 : d3 < 10) :
    digitalRoot (baseStr d1 d2 d3) =
      (if d1 + d2 + d3 = 0 then 0 else 1 + (d1 + d2 + d3 - 1) % 9) ∧
    sqlSeedChecksum (100 * d1 + 10 * d2 + d3) = digitalRoot (baseStr d1 d2 d3) ∧
    (1 ≤ 100 * d1 + 10 * d2 + d3 →
      schemaSeedChecksum (100 * d1 + 10 * d2 + d3) = digitalRoot (baseStr d1 d2 d3)) ∧
    (1 ≤ d1 + d2 + d3 →
      constraintChecksum d1 d2 d3 = digitalRoot (baseStr d1 d2 d3)) ∧
    (d1 + d2 + d3 ≠ 0 →
      1 ≤ digitalRoot (baseStr d1 d2 d3) ∧ digitalRoot (baseStr d1 d2 d3) ≤ 9) := by
  have hs := sumDigits_baseStr d1 d2 d3 h1 h2 h3
  have hd := digitalRoot_closed (baseStr d1 d2 d3)
  rw [hs] at hd
  rw [hd]
  unfold sqlSeedChecksum schemaSeedChecksum constraintChecksum
  refine ⟨rfl, ?_, ?_, ?_, ?_⟩
  · split
    · split
      · rfl
      · omega
    · split
      · omega
      · omega
  · intro hn
    split
    · omega
    · omega
  · intro hn
    split
    · omega
    · omega
  · intro hn
    split
    · omega
    · omega

/-- C3 witness: instantiated at base `"110"` (digits 1, 1, 0; digital root 2). -/
theorem C3_checksum_function_witness :
    digitalRoot (baseStr 1 1 0) =
      (if 1 + 1 + 0 = 0 then 0 else 1 + (1 + 1 + 0 - 1) % 9) ∧
    sqlSeedChecksum (100 * 1 + 10 * 1 + 0) = digitalRoot (baseStr 1 1 0) ∧
    (1 ≤ 100 * 1 + 10 * 1 + 0 →
      schemaSeedChecksum (100 * 1 + 10 * 1 + 0) = digitalRoot (baseStr 1 1 0)) ∧
    (1 ≤ 1 + 1 + 0 →
      constraintChecksum 1 1 0 = digitalRoot (baseStr 1 1 0)) ∧
    (1 + 1 + 0 ≠ 0 →
      1 ≤ digitalRoot (baseStr 1 1 0) ∧ digitalRoot (baseStr 1 1 0) ≤ 9) :=
  C3_checksum_function 1 1 0 (by omega) (by omega) (by omega)

/-- C6: `bind-from-pool` on a code whose base row is already allocated fails
with `already allocated` and returns the pool unchanged — no silent
overwrite. -/
theorem C6_bind_rejects_allocated (pool : List CodeSlot) (level : Option String)
    (ids : Ids) (code pfx : String) (now : Nat) (t : String × String)
    (b check : String) (slot : CodeSlot)
    (hres : resolveTarget level ids = Except.ok t)
    (hparse : parseUssdDigits code = some (b, check))
    (hsum : toString (digitalRoot b) = check)
    (hfind : pool.find? (fun r => r.base == b) = some slot)
    (halloc : slot.allocated = true) :
    bindFromPool pool level ids code pfx now = (Except.error "already allocated", pool) := by
  unfold bindFromPool
  split
  · rename_i hc
    rw [resolveTarget_not_cashier level ids t hres] at hc
    exact absurd hc (by simp)
  · split
    · rename_i e he
      rw [hres] at he
      exact absurd he (by simp)
    · rename_i t' ht'
      rw [hres] at ht'
      injection ht' with ht'
      subst ht'
      split
      · rename_i hp
        rw [hparse] at hp
        exact absurd hp (by simp)
      · rename_i b' check' hp
        rw [hparse] at hp
        injection hp with hp
        injection hp with hpb hpc
        subst hpb
        subst hpc
        split
        · rename_i hw
          exact absurd hsum hw
        · split
          · rename_i hf
            rw [hfind] at hf
            exact absurd hf (by simp)
          · rename_i slot' hf
            rw [hfind] at hf
            injection hf with hf
            subst hf
            split
            · rfl
            · rename_i ha
              exact absurd halloc ha

/-- C6 witness: after `assign-next` claims base `"110"` for `SACCO A1`,
binding `*001*1102#` for `MATATU M1` fails with `already allocated` and the
slot still reads `SACCO`/`A1`. -/
theorem C6_bind_rejects_allocated_witness :
    (assignNext [slot110] (some "SACCO") ⟨some "A1", none, none⟩ "*001*" 0).2 =
      [allocUpdate ("SACCO", "A1") 0 slot110] ∧
    bindFromPool [allocUpdate ("SACCO", "A1") 0 slot110] (some "MATATU")
        ⟨none, some "M1", none⟩ "*001*1102#" "*001*" 1 =
      (Except.error "already allocated", [allocUpdate ("SACCO", "A1") 0 slot110]) ∧
    (allocUpdate ("SACCO", "A1") 0 slot110).level = some "SACCO" ∧
    (allocUpdate ("SACCO", "A1") 0 slot110).sacco_id = some "A1" := by
  refine ⟨by decide, ?_, by decide, by decide⟩
  exact C6_bind_rejects_allocated [allocUpdate ("SACCO", "A1") 0 slot110]
    (some "MATATU") ⟨none, some "M1", none⟩ "*001*1102#" "*001*" 1
    ("MATATU", "M1") "110" "2" (allocUpdate ("SACCO", "A1") 0 slot110)
    (by decide) (by decide)
    (by rw [digitalRoot_closed]; decide) (by decide) (by decide)

/-- C7: when the parsed check digit differs from the recomputed digital root
of the parsed base, `bind-from-pool` fails with `checksum mismatch` and
returns the pool unchanged — for every pool, so the outcome is independent of
the store and no slot is touched. -/
theorem C7_checksum_guard (pool : List CodeSlot) (level : Option String)
    (ids : Ids) (code pfx : String) (now : Nat) (t : String × String)
    (b check : String)
    (hres : resolveTarget level ids = Except.ok t)
    (hparse : parseUssdDigits code = some (b, check))
    (hmis : toString (digitalRoot b) ≠ check) :
    bindFromPool pool level ids code pfx now =
      (Except.error ("checksum mismatch; expected " ++ toString (digitalRoot b)), pool) := by
  unfold bindFromPool
  split
  · rename_i hc
    rw [resolveTarget_not_cashier level ids t hres] at hc
    exact absurd hc (by simp)
  · split
    · rename_i e he
      rw [hres] at he
      exact absurd he (by simp)
    · rename_i t' ht'
      rw [hres] at ht'
      injection ht' with ht'
      subst ht'
      split
      · rename_i hp
        rw [hparse] at hp
        exact absurd hp (by simp)
      · rename_i b' check' hp
        rw [hparse] at hp
        injection hp with hp
        injection hp with hpb hpc
        subst hpb
        subst hpc
        split
        · rfl
        · rename_i hw
          exact absurd hmis hw

/-- C7 witness: binding `*001*1109#` (base `"110"` has digital root 2, not 9)
fails with `checksum mismatch; expected 2` and slot `"110"` stays
unallocated. -/
theorem C7_checksum_guard_witness :
    bindFromPool [slot110] (some "SACCO") ⟨some "A1", none, none⟩
        "*001*1109#" "*001*" 0 =
      (Except.error "checksum mismatch; expected 2", [slot110]) ∧
    slot110.allocated = false := by
  refine ⟨?_, by decide⟩
  have h := C7_checksum_guard [slot110] (some "SACCO") ⟨some "A1", none, none⟩
    "*001*1109#" "*001*" 0 ("SACCO", "A1") "110" "9"
    (by decide) (by decide) (by rw [digitalRoot_closed]; decide)
  rw [h, digitalRoot_closed]
  decide

/-- C8: for every level whose uppercased value is neither `SACCO` nor
`MATATU` (notably the legacy `CASHIER`), both `assign-next` and
`bind-from-pool` are rejected with an error and no slot is mutated. -/
theorem C8_unsupported_level (pool : List CodeSlot) (level : Option String)
    (ids : Ids) (code pfx : String) (now : Nat)
    (h1 : upcase (level.getD "") ≠ "SACCO")
    (h2 : upcase (level.getD "") ≠ "MATATU") :
    (∃ e, assignNext pool level ids pfx now = (Except.error e, pool)) ∧
    (∃ e, bindFromPool pool level ids code pfx now = (Except.error e, pool)) := by
  have hnok : ∀ t, resolveTarget level ids ≠ Except.ok t := by
    intro t hok
    have hspec := resolveTarget_ok_spec level ids t hok
    rcases hspec.1 with h | h
    · exact h2 (h ▸ hspec.2.2)
    · exact h1 (h ▸ hspec.2.2)
  obtain ⟨e0, he0⟩ : ∃ e0, resolveTarget level ids = Except.error e0 := by
    cases hr : resolveTarget level ids with
    | ok t => exact absurd hr (hnok t)
    | error e => exact ⟨e, rfl⟩
  constructor
  · by_cases hc : (upcase (level.getD "") == "CASHIER") = true
    · refine ⟨"CASHIER level no longer supported", ?_⟩
      unfold assignNext
      rw [if_pos hc]
    · refine ⟨e0, ?_⟩
      unfold assignNext
      rw [if_neg hc, he0]
  · by_cases hc : (upcase (level.getD "") == "CASHIER") = true
    · refine ⟨"CASHIER level no longer supported", ?_⟩
      unfold bindFromPool
      rw [if_pos hc]
    · refine ⟨e0, ?_⟩
      unfold bindFromPool
      rw [if_neg hc, he0]

/-- C8 witness: `CASHIER` requests to both endpoints are rejected and the pool
is unchanged. -/
theorem C8_unsupported_level_witness :
    (∃ e, assignNext [slot110] (some "CASHIER") ⟨none, none, some "C1"⟩
      "*001*" 0 = (Except.error e, [slot110])) ∧
    (∃ e, bindFromPool [slot110] (some "CASHIER") ⟨none, none, some "C1"⟩
      "*001*1102#" "*001*" 0 = (Except.error e, [slot110])) :=
  C8_unsupported_level [slot110] (some "CASHIER") ⟨none, none, some "C1"⟩
    "*001*1102#" "*001*" 0 (by decide) (by decide)

/-- C9 counterexample: the claim says malformed base input (non-digit
characters, wrong length) is rejected with a `FormatError` rather than
producing a digit.  The string `"1a0"` contains a non-digit, yet `digitalRoot`
produces the digit `1` — there is no rejection path. -/
theorem C9_counterexample :
    ("1a0".data.all Char.isDigit) = false ∧ "1a0".data.length = 3 ∧
    digitalRoot "1a0" = 1 ∧ digitalRoot "1a0" ≤ 9 := by
  refine ⟨by decide, by decide, ?_, ?_⟩
  · rw [digitalRoot_closed]
    decide
  · rw [digitalRoot_closed]
    decide

/-- C9 (amended): the checksum computation is a pure total function: on every
input, malformed or not, it returns the digital root of the sum of the digit
characters (non-digit characters counting 0), always a single digit at most 9;
no input is rejected. -/
theorem C9_pure_total (b : String) :
    digitalRoot b = (if sumDigits b = 0 then 0 else 1 + (sumDigits b - 1) % 9) ∧
    digitalRoot b ≤ 9 := by
  have h := digitalRoot_closed b
  refine ⟨h, ?_⟩
  rw [h]
  split
  · omega
  · omega

/-- C10: the code parser accepts a string exactly when some position starts
four decimal digits followed by `#` or the end of the string; it captures the
first such position as base (three digits) and check digit (the fourth), so a
string such as `"12345#"` is not rejected but parsed at an interior offset as
base `"234"`, check `"5"`. -/
theorem C10_parser_first_match :
    (∀ s : String, parseUssdDigits s = none ↔ ∀ i, extract4 (s.data.drop i) = none) ∧
    (∀ (s : String) (r : String × String), parseUssdDigits s = some r ↔
      ∃ i, extract4 (s.data.drop i) = some r ∧
        ∀ j < i, extract4 (s.data.drop j) = none) ∧
    parseUssdDigits "12345#" = some ("234", "5") :=
  ⟨fun s => scanCode_eq_none_iff s.data,
   fun s r => scanCode_eq_some_iff s.data r,
   by decide⟩

/-- C10 witness: `"12345#"` parses as base `"234"`, check `"5"`, at offset 1,
offset 0 not matching. -/
theorem C10_parser_first_match_witness :
    parseUssdDigits "12345#" = some ("234", "5") ∧
    extract4 ("12345#".data.drop 1) = some ("234", "5") ∧
    extract4 ("12345#".data.drop 0) = none :=
  ⟨C10_parser_first_match.2.2, by decide, by decide⟩

end TekeTeke
